import Mathlib

/-!
Verification development for the `twitchbot` IRC core
(`src/twitchbot/domain/irc.py` and `src/twitchbot/domain/models.py`).

Strings are embedded as `List Char` (written `Str` below); the Python string
operations the code uses (`strip`, `split(sep, 1)`, `split(sep)`, `split()`,
`upper`, `startswith`, `in`) are given executable definitions with Python's
semantics.  Python `dict` built from a sequence of key/value pairs is embedded
as an insertion-ordered association list with unique keys, later bindings
overwriting earlier ones in place.  Python `set` with `add` is embedded as a
duplicate-free list.

The source's Python defects are modelled rather than idealized: the dataclass
declaration of `IrcMessage` is itself ill-formed (the non-default field
`command` follows the defaulted `tags`/`prefix`, so class creation raises
`TypeError`), the parser's `return IrcMessage(...)` additionally passes the
keyword `trailing=` to a class whose field is `trailing_message`, and
`to_chat_message` calls `self._parse_badges_to_roles`, an attribute the slots
class does not have.  The fallible operations therefore return
`Except PyError _`, every `IrcMessage` construction point fails with
`PyError.typeError`, every PRIVMSG-with-params projection fails with
`PyError.attributeError`, and the parser's computed locals are exposed
separately as `parseLocals`.
-/

namespace Twitchbot

abbrev Str := List Char

/-- Python whitespace for `str.strip()` / `str.split()` (ASCII subset). -/
def isPySpace (c : Char) : Bool :=
  c = ' ' || c = '\t' || c = '\n' || c = '\r' || c = '\x0b' || c = '\x0c'

/-- Python `s.lstrip()`. -/
def pyLStrip (s : Str) : Str := s.dropWhile isPySpace

/-- Python `s.rstrip()`. -/
def pyRStrip : Str → Str
  | [] => []
  | c :: rest =>
    match pyRStrip rest with
    | [] => if isPySpace c then [] else [c]
    | r => c :: r

/-- Python `s.strip()`. -/
def pyStrip (s : Str) : Str := pyRStrip (pyLStrip s)

/-- Python `s.upper()` (ASCII). -/
def pyUpper (s : Str) : Str := s.map Char.toUpper

/-- Python `s.startswith(p)`. -/
def pyStartsWith (p s : Str) : Bool := p.isPrefixOf s

/-- Split at the first occurrence of `sep` (Python `s.split(sep, 1)` when the
separator occurs; `none` models the separator being absent, in which case
Python returns the one-element list `[s]`).  Also decides Python `sep in s`. -/
def splitFirst (sep : Str) : Str → Option (Str × Str)
  | [] => if sep.isPrefixOf ([] : Str) then some ([], []) else none
  | c :: rest =>
    if sep.isPrefixOf (c :: rest) then some ([], (c :: rest).drop sep.length)
    else (splitFirst sep rest).map (fun p => (c :: p.1, p.2))

/-- Python `s.split(sep)` for a one-character separator (keeps empty
segments; `"".split(sep) = [""]`). -/
def splitAllChar (sep : Char) : Str → List Str
  | [] => [[]]
  | c :: rest =>
    if c = sep then [] :: splitAllChar sep rest
    else
      match splitAllChar sep rest with
      | [] => [[c]]
      | a :: as => (c :: a) :: as

/-- Helper for `wsTokens`: `cur` is the (reversed) token being accumulated. -/
def wsTokensAux (cur : Str) : Str → List Str
  | [] => if cur = [] then [] else [cur.reverse]
  | c :: rest =>
    if isPySpace c then
      if cur = [] then wsTokensAux [] rest
      else cur.reverse :: wsTokensAux [] rest
    else wsTokensAux (c :: cur) rest

/-- Python `s.split()` with no argument: split on runs of whitespace,
no empty tokens. -/
def wsTokens (s : Str) : List Str := wsTokensAux [] s

/-- Embedding of a Python `dict` from string keys to string values:
insertion-ordered association list with unique keys. -/
abbrev Dict := List (Str × Str)

/-- `d[k] = v`: overwrite in place when the key is present, append otherwise
(Python dict update semantics). -/
def dictInsert (d : Dict) (k v : Str) : Dict :=
  if d.any (fun p => p.1 = k) then
    d.map (fun p => if p.1 = k then (k, v) else p)
  else d ++ [(k, v)]

/-- Python `dict(pairs)`: fold the pairs into an empty dict. -/
def dictOfPairs (l : List (Str × Str)) : Dict :=
  l.foldl (fun d p => dictInsert d p.1 p.2) []

/-- Python `d[k]` as an option (`some` iff `k in d`). -/
def dictGet (d : Dict) (k : Str) : Option Str :=
  (d.find? (fun p => p.1 = k)).map (fun p => p.2)

/-- Python `d.get(k, dflt)`. -/
def dictGetD (d : Dict) (k : Str) (dflt : Str) : Str :=
  (dictGet d k).getD dflt

/-- Python `set.add`: append iff not already present (duplicate-free list as
the set). -/
def setAdd (s : List Str) (x : Str) : List Str :=
  if x ∈ s then s else s ++ [x]

/-! ### Data model (`models.py`) -/

/-- The Python errors of the core, as the source actually behaves.
`emptyLine` is `ValueError("Empty IRC line")` (irc.py line 19).
`unpackError` is the `ValueError` Python raises when `line.split(" ", 1)`
yields a single element and tuple unpacking fails (a tags or prefix segment
with no following space).  `indexError` is the `IndexError` from `parts[0]`
when no token remains.  `typeError` is the `TypeError` at every `IrcMessage`
construction point: the dataclass declaration itself fails at class creation
(non-default field `command` after the defaulted `tags`/`prefix`,
models.py lines 8-12), and the call in irc.py lines 43-49 additionally passes
the keyword `trailing=` to a class whose field is `trailing_message`.
`attributeError` is the `AttributeError` from `self._parse_badges_to_roles`
at models.py line 26 (the function is defined at module level, outside the
slots dataclass). -/
inductive PyError where
  | emptyLine
  | unpackError
  | indexError
  | typeError
  | attributeError
deriving DecidableEq, Repr

/-- The declared schema of `IrcMessage` from `models.py`.  The Python field
`prefix` is named `pfx` here (`prefix` is reserved in Lean); the trailing
free-text field is `trailing_message` in the class declaration while the
parser's constructor call says `trailing=` — it is one field, named
`trailing` here.  The declaration is broken Python: the non-default field
`command` follows the defaulted `tags`/`prefix`, so `@dataclass` raises
`TypeError` at class creation and no instance is ever constructed at
runtime; every construction point below is accordingly modelled as failing
with `PyError.typeError`, and values of this structure only carry the field
values a construction is attempted with (the parser's locals). -/
structure IrcMessage where
  tags : Dict
  pfx : Option Str
  command : Str
  params : List Str
  trailing : Option Str
deriving DecidableEq, Repr

/-- The `nick` derived property: `prefix.split('!', 1)[0]` when a prefix is
present, `None` otherwise. -/
def IrcMessage.nick (m : IrcMessage) : Option Str :=
  m.pfx.map (fun p =>
    match splitFirst ['!'] p with
    | some q => q.1
    | none => p)

/-- The declared schema of `TwitchChatMessage` from `models.py`: `roles` is
the Python set of role names, `raw` the back-reference to the source message.
Never constructed at runtime: the only construction point (models.py line 28)
sits after the `self._parse_badges_to_roles` call of line 26, which raises
`AttributeError`. -/
structure TwitchChatMessage where
  channel : Str
  user : Str
  message : Str
  roles : List Str
  raw : Option IrcMessage
deriving DecidableEq, Repr

/-- Loop body of `_parse_badges_to_roles`: `if '/' in badge:
role, _ = badge.split('/', 1); roles.add(role)`. -/
def rolesStep (roles : List Str) (badge : Str) : List Str :=
  match splitFirst ['/'] badge with
  | some q => setAdd roles q.1
  | none => roles

/-- `_parse_badges_to_roles` from `models.py`: split the badges value on `,`,
and for each entry containing `/` add the part before the first `/`. -/
def _parse_badges_to_roles (badges : Str) : List Str :=
  (splitAllChar ',' badges).foldl rolesStep []

/-- `IrcMessage.to_chat_message` from `models.py`, as the source behaves:
the guard `if self.command != 'PRIVMSG' or not self.params: return None` runs
and returns `None` (`.ok none`); past it, line 26 evaluates
`self._parse_badges_to_roles` — an attribute the `slots=True` dataclass does
not have, since the function is defined at module level below the class — so
every PRIVMSG with params raises `AttributeError` and no `TwitchChatMessage`
is ever built. -/
def IrcMessage.to_chat_message (m : IrcMessage) :
    Except PyError (Option TwitchChatMessage) :=
  match m.params with
  | [] => .ok none
  | _ :: _ =>
    if m.command = "PRIVMSG".data then .error .attributeError
    else .ok none

/-- The `user` argument expression of the attempted `TwitchChatMessage`
construction, `self.tags.get('display-name', self.nick or '')`
(models.py line 31) — never reached in the source, since line 26 raises
first. -/
def userArg (m : IrcMessage) : Str :=
  dictGetD m.tags "display-name".data ((IrcMessage.nick m).getD [])

/-! ### Line parser and builders (`irc.py`) -/

/-- The pairs `_parse_tags` feeds to `dict(...)` (the generator expression in
`irc.py`): split on `;`, skip empty segments, split each segment at the first
`=` or map it to the empty value. -/
def tagPairs (raw : Str) : List (Str × Str) :=
  ((splitAllChar ';' raw).filter (fun kv => kv ≠ [])).map
    (fun kv =>
      match splitFirst ['='] kv with
      | some q => q
      | none => (kv, []))

/-- `_parse_tags` from `irc.py`. -/
def _parse_tags (raw : Str) : Dict := dictOfPairs (tagPairs raw)

/-- Tags step of `parse_irc_line`: `if line.startswith("@"): tag_part, line =
line.split(" ", 1); tags = _parse_tags(tag_part[1:])`.  The `unpackError` arm
is the `ValueError` tuple unpacking raises when the line holds no space. -/
def parseTagsStep (line : Str) : Except PyError (Dict × Str) :=
  if pyStartsWith ['@'] line then
    match splitFirst [' '] line with
    | none => .error .unpackError
    | some q => .ok (_parse_tags (q.1.drop 1), q.2)
  else .ok ([], line)

/-- Prefix step of `parse_irc_line`: `if line.startswith(":"): prefix_part,
line = line.split(" ", 1); prefix = prefix_part[1:]`. -/
def parsePfxStep (line : Str) : Except PyError (Option Str × Str) :=
  if pyStartsWith [':'] line then
    match splitFirst [' '] line with
    | none => .error .unpackError
    | some q => .ok (some (q.1.drop 1), q.2)
  else .ok (none, line)

/-- Trailing step of `parse_irc_line`: `if " :" in line: line, trailing =
line.split(" :", 1)`. -/
def splitTrailing (line : Str) : Str × Option Str :=
  match splitFirst [' ', ':'] line with
  | none => (line, none)
  | some q => (q.1, some q.2)

/-- The body of `parse_irc_line` up to — not including — the final
`return IrcMessage(...)` (irc.py lines 17-41), applied to the stripped line:
raises `EmptyLine` on an empty line, runs the tags, prefix, trailing and
tokenization steps, and on success carries the computed locals `command`,
`params`, `prefix`, `tags`, `trailing`, bundled in the declared schema. -/
def parseLocalsAux (line : Str) : Except PyError IrcMessage :=
  if line = [] then .error .emptyLine
  else
    match parseTagsStep line with
    | .error e => .error e
    | .ok (tags, line1) =>
      match parsePfxStep line1 with
      | .error e => .error e
      | .ok (pfx, line2) =>
        let st := splitTrailing line2
        match wsTokens st.1 with
        | [] => .error .indexError
        | cmd :: ps =>
          .ok { tags := tags, pfx := pfx, command := pyUpper cmd,
                params := ps, trailing := st.2 }

/-- The locals of `parse_irc_line` on input `raw`
(after `line = raw.strip()`, irc.py line 17). -/
def parseLocals (raw : Str) : Except PyError IrcMessage :=
  parseLocalsAux (pyStrip raw)

/-- `parse_irc_line` from `irc.py`, as the source behaves.  The final
`return IrcMessage(command=..., trailing=...)` never succeeds: the
`IrcMessage` dataclass declaration already raises `TypeError` at class
creation, and the call additionally passes the keyword `trailing=` to a
class whose field is `trailing_message` — so every input that survives
tokenization fails with `typeError`, and `parse_irc_line` never returns an
`IrcMessage`. -/
def parse_irc_line (raw : Str) : Except PyError IrcMessage :=
  match parseLocals raw with
  | .error e => .error e
  | .ok _ => .error .typeError

/-- `build_privmsg` from `irc.py`. -/
def build_privmsg (channel text : Str) : Str :=
  "PRIVMSG ".data ++ channel ++ " :".data ++ text

/-- `build_pong` from `irc.py`. -/
def build_pong (payload : Str) : Str := "PONG :".data ++ payload

/-- `build_join` from `irc.py`. -/
def build_join (channel : Str) : Str := "JOIN ".data ++ channel

/-- `build_pass_nick` from `irc.py`. -/
def build_pass_nick (token nick : Str) : List Str :=
  ["PASS oauth:".data ++ token, "NICK ".data ++ nick]

/-! ### Spec-side comparison definitions -/

/-- Index of the first occurrence of `sep` in a string (`none` when absent).
Spec-side notion used to compare `splitTrailing` with the spec's "search the
remaining line for the first occurrence of the two-character sequence". -/
def firstOccurIdx (sep : Str) : Str → Option Nat
  | [] => if sep.isPrefixOf ([] : Str) then some 0 else none
  | c :: rest =>
    if sep.isPrefixOf (c :: rest) then some 0
    else (firstOccurIdx sep rest).map (· + 1)

/-- The spec's description of trailing detection (§4.2 step 4): find the
first occurrence of `" :"`; everything after it is the trailing text and
everything before it is the remainder to tokenize; when absent there is no
trailing text. -/
def specSplitTrailing (line : Str) : Str × Option Str :=
  match firstOccurIdx [' ', ':'] line with
  | none => (line, none)
  | some i => (line.take i, some (line.drop (i + 2)))

/-- Join string segments with a separator character (inverse view of
`splitAllChar`, used to state that the tag parser splits its input on `;`). -/
def joinWith (sep : Char) : List Str → Str
  | [] => []
  | [a] => a
  | a :: b :: rest => a ++ sep :: joinWith sep (b :: rest)

/-! ### Sample inputs used by witnesses and counterexamples -/

def mC3 : IrcMessage :=
  { tags := [], pfx := some "bar!x@y".data, command := "PRIVMSG".data,
    params := ["#chan".data], trailing := some "hello".data }

def mC2 : IrcMessage :=
  { tags := [("display-name".data, "Foo".data)], pfx := some "bar!x@y".data,
    command := "PRIVMSG".data, params := ["#chan".data], trailing := some "hi".data }

def allNotSpace (s : Str) : Bool := s.all (fun c => !isPySpace c)

def lastNotSpace (s : Str) : Bool :=
  match s.getLast? with
  | none => true
  | some c => !isPySpace c

def mC8 : IrcMessage :=
  { tags := [("badges".data, "moderator/1,subscriber/0".data)],
    pfx := some "bar!x@y".data, command := "PRIVMSG".data,
    params := ["#chan".data], trailing := some "hi".data }

/-! ### Supporting lemmas -/

theorem splitFirst_char_some (d : Char) :
    ∀ (s a b : Str), splitFirst [d] s = some (a, b) → s = a ++ d :: b ∧ d ∉ a := by
  intro s
  induction s with
  | nil => intro a b h; simp [splitFirst, List.isPrefixOf] at h
  | cons c s ih =>
    intro a b h
    by_cases hdc : d = c
    · subst hdc
      simp [splitFirst, List.isPrefixOf] at h
      obtain ⟨rfl, rfl⟩ := h
      simp
    · rw [show splitFirst [d] (c :: s)
          = (splitFirst [d] s).map (fun p => (c :: p.1, p.2)) by
        simp [splitFirst, List.isPrefixOf, hdc]] at h
      cases hs : splitFirst [d] s with
      | none => rw [hs] at h; simp at h
      | some p =>
        rw [hs] at h
        simp at h
        obtain ⟨rfl, rfl⟩ := h
        obtain ⟨h1, h2⟩ := ih p.1 p.2 (by rw [hs])
        refine ⟨by rw [h1]; simp, ?_⟩
        simp [hdc, h2]

theorem splitFirst_char_complete (d : Char) :
    ∀ (a b : Str), d ∉ a → splitFirst [d] (a ++ d :: b) = some (a, b) := by
  intro a
  induction a with
  | nil => intro b _; simp [splitFirst, List.isPrefixOf]
  | cons c a' ih =>
    intro b hd
    simp at hd
    rw [List.cons_append,
      show splitFirst [d] (c :: (a' ++ d :: b))
          = (splitFirst [d] (a' ++ d :: b)).map (fun p => (c :: p.1, p.2)) by
        simp [splitFirst, List.isPrefixOf, hd.1]]
    rw [ih b hd.2]
    simp

theorem splitFirst_char_some_iff (d : Char) (s a b : Str) :
    splitFirst [d] s = some (a, b) ↔ s = a ++ d :: b ∧ d ∉ a := by
  constructor
  · exact splitFirst_char_some d s a b
  · rintro ⟨rfl, h⟩; exact splitFirst_char_complete d a b h

theorem splitFirst_char_none_iff (d : Char) :
    ∀ (s : Str), splitFirst [d] s = none ↔ d ∉ s := by
  intro s
  induction s with
  | nil => simp [splitFirst, List.isPrefixOf]
  | cons c s ih =>
    by_cases hdc : d = c
    · subst hdc; simp [splitFirst, List.isPrefixOf]
    · rw [show splitFirst [d] (c :: s)
          = (splitFirst [d] s).map (fun p => (c :: p.1, p.2)) by
        simp [splitFirst, List.isPrefixOf, hdc]]
      cases hs : splitFirst [d] s <;> simp_all

theorem isPySpace_space : isPySpace ' ' = true := by decide

theorem ne_space_of_not_isPySpace {c : Char} (h : isPySpace c = false) : c ≠ ' ' := by
  intro hc; subst hc; simp [isPySpace] at h

theorem splitFirst_marker (tx : Str) :
    ∀ (ch : Str), (∀ c ∈ ch, isPySpace c = false) →
      splitFirst [' ', ':'] (ch ++ ' ' :: ':' :: tx) = some (ch, tx) := by
  intro ch
  induction ch with
  | nil => intro _; simp [splitFirst, List.isPrefixOf]
  | cons c ch' ih =>
    intro h
    have hc : c ≠ ' ' := ne_space_of_not_isPySpace (h c (List.mem_cons_self c ch'))
    rw [List.cons_append,
      show splitFirst [' ', ':'] (c :: (ch' ++ ' ' :: ':' :: tx))
          = (splitFirst [' ', ':'] (ch' ++ ' ' :: ':' :: tx)).map
              (fun p => (c :: p.1, p.2)) by
        simp [splitFirst, List.isPrefixOf, Ne.symm hc]]
    rw [ih (fun c hc => h c (List.mem_cons_of_mem _ hc))]
    simp

theorem splitFirst_cons_of_ne_space {c : Char} (hc : c ≠ ' ') (s : Str) :
    splitFirst [' ', ':'] (c :: s)
      = (splitFirst [' ', ':'] s).map (fun p => (c :: p.1, p.2)) := by
  simp [splitFirst, List.isPrefixOf, Ne.symm hc]

theorem splitFirst_space_cons_of_ne {c : Char} (hc : c ≠ ':') (s : Str) :
    splitFirst [' ', ':'] (' ' :: c :: s)
      = (splitFirst [' ', ':'] (c :: s)).map (fun p => (' ' :: p.1, p.2)) := by
  simp [splitFirst, List.isPrefixOf, Ne.symm hc]

theorem splitFirst_eq_firstOccurIdx (sep : Str) :
    ∀ s : Str, splitFirst sep s
      = (firstOccurIdx sep s).map (fun i => (s.take i, s.drop (i + sep.length))) := by
  intro s
  induction s with
  | nil =>
    by_cases h : sep.isPrefixOf ([] : Str) <;>
      simp [splitFirst, firstOccurIdx, h]
  | cons c s ih =>
    by_cases h : sep.isPrefixOf (c :: s)
    · simp [splitFirst, firstOccurIdx, h]
    · rw [show splitFirst sep (c :: s)
          = (splitFirst sep s).map (fun p => (c :: p.1, p.2)) by
            simp [splitFirst, h],
        show firstOccurIdx sep (c :: s) = (firstOccurIdx sep s).map (· + 1) by
            simp [firstOccurIdx, h],
        ih]
      cases hs : firstOccurIdx sep s <;> simp [Nat.add_right_comm]

theorem pyLStrip_cons_of_not_space {c : Char} (h : isPySpace c = false) (s : Str) :
    pyLStrip (c :: s) = c :: s := by
  simp [pyLStrip, List.dropWhile_cons, h]

theorem pyRStrip_eq_self :
    ∀ s : Str, (∀ c, s.getLast? = some c → isPySpace c = false) → pyRStrip s = s := by
  intro s
  induction s with
  | nil => intro _; rfl
  | cons c s ih =>
    intro h
    cases s with
    | nil =>
      have hc := h c rfl
      simp [pyRStrip, hc]
    | cons d s' =>
      have hds : pyRStrip (d :: s') = d :: s' := by
        apply ih
        intro e he
        exact h e (by rw [List.getLast?_cons_cons]; exact he)
      rw [show pyRStrip (c :: d :: s')
          = match pyRStrip (d :: s') with
            | [] => if isPySpace c then [] else [c]
            | r => c :: r from rfl]
      rw [hds]

theorem wsTokensAux_mem_ne_nil :
    ∀ (s cur t : Str), t ∈ wsTokensAux cur s → t ≠ [] := by
  intro s
  induction s with
  | nil =>
    intro cur t h
    by_cases hc : cur = [] <;> simp [wsTokensAux, hc] at h
    subst h
    simpa using hc
  | cons c s ih =>
    intro cur t h
    by_cases hsp : isPySpace c
    · by_cases hc : cur = []
      · rw [show wsTokensAux cur (c :: s) = wsTokensAux [] s by
          simp [wsTokensAux, hsp, hc]] at h
        exact ih [] t h
      · rw [show wsTokensAux cur (c :: s) = cur.reverse :: wsTokensAux [] s by
          simp [wsTokensAux, hsp, hc]] at h
        rcases List.mem_cons.mp h with h | h
        · subst h; simpa using hc
        · exact ih [] t h
    · rw [show wsTokensAux cur (c :: s) = wsTokensAux (c :: cur) s by
        simp [wsTokensAux, hsp]] at h
      exact ih (c :: cur) t h

theorem wsTokens_mem_ne_nil {s t : Str} (h : t ∈ wsTokens s) : t ≠ [] :=
  wsTokensAux_mem_ne_nil s [] t h

theorem wsTokensAux_all_nonspace :
    ∀ (ch : Str), (∀ c ∈ ch, isPySpace c = false) → ∀ cur : Str,
      wsTokensAux cur ch
        = if cur.reverse ++ ch = [] then [] else [cur.reverse ++ ch] := by
  intro ch
  induction ch with
  | nil =>
    intro _ cur
    by_cases hc : cur = []
    · simp [wsTokensAux, hc]
    · simp [wsTokensAux, hc, List.reverse_eq_nil_iff]
  | cons c ch' ih =>
    intro h cur
    have hc : isPySpace c = false := h c (List.mem_cons_self c ch')
    rw [show wsTokensAux cur (c :: ch') = wsTokensAux (c :: cur) ch' by
      simp [wsTokensAux, hc]]
    rw [ih (fun e he => h e (List.mem_cons_of_mem _ he)) (c :: cur)]
    simp

theorem wsTokensAux_token_space (s : Str) :
    ∀ (t : Str), (∀ c ∈ t, isPySpace c = false) → ∀ cur : Str,
      cur ≠ [] ∨ t ≠ [] →
      wsTokensAux cur (t ++ ' ' :: s) = (cur.reverse ++ t) :: wsTokensAux [] s := by
  intro t
  induction t with
  | nil =>
    intro _ cur hne
    have hc : cur ≠ [] := by rcases hne with h | h; exact h; simp at h
    simp [wsTokensAux, hc, isPySpace_space]
  | cons c t' ih =>
    intro h cur _
    have hc : isPySpace c = false := h c (List.mem_cons_self c t')
    rw [List.cons_append,
      show wsTokensAux cur (c :: (t' ++ ' ' :: s)) = wsTokensAux (c :: cur) (t' ++ ' ' :: s) by
        simp [wsTokensAux, hc]]
    rw [ih (fun e he => h e (List.mem_cons_of_mem _ he)) (c :: cur) (Or.inl (by simp))]
    simp

theorem splitAllChar_ne_nil (sep : Char) : ∀ s : Str, splitAllChar sep s ≠ [] := by
  intro s
  induction s with
  | nil => simp [splitAllChar]
  | cons c s ih =>
    by_cases hc : c = sep
    · simp [splitAllChar, hc]
    · rw [show splitAllChar sep (c :: s)
          = match splitAllChar sep s with
            | [] => [[c]]
            | a :: as => (c :: a) :: as by simp [splitAllChar, hc]]
      cases hs : splitAllChar sep s <;> simp

theorem joinWith_cons_cons (sep c : Char) (a : Str) :
    ∀ as : List Str, joinWith sep ((c :: a) :: as) = c :: joinWith sep (a :: as) := by
  intro as
  cases as with
  | nil => rfl
  | cons b bs => simp [joinWith]

theorem joinWith_splitAllChar (sep : Char) :
    ∀ s : Str, joinWith sep (splitAllChar sep s) = s := by
  intro s
  induction s with
  | nil => rfl
  | cons c s ih =>
    by_cases hc : c = sep
    · rw [show splitAllChar sep (c :: s) = [] :: splitAllChar sep s by
        simp [splitAllChar, hc]]
      cases hs : splitAllChar sep s with
      | nil => exact absurd hs (splitAllChar_ne_nil sep s)
      | cons a as =>
        rw [show joinWith sep ([] :: a :: as) = [] ++ sep :: joinWith sep (a :: as) from rfl]
        rw [hs] at ih
        simp [ih, hc]
    · rw [show splitAllChar sep (c :: s)
          = match splitAllChar sep s with
            | [] => [[c]]
            | a :: as => (c :: a) :: as by simp [splitAllChar, hc]]
      cases hs : splitAllChar sep s with
      | nil => exact absurd hs (splitAllChar_ne_nil sep s)
      | cons a as =>
        rw [joinWith_cons_cons]
        rw [hs] at ih
        rw [ih]

theorem splitAllChar_not_mem_sep (sep : Char) :
    ∀ s : Str, ∀ seg ∈ splitAllChar sep s, sep ∉ seg := by
  intro s
  induction s with
  | nil => intro seg h; simp [splitAllChar] at h; simp [h]
  | cons c s ih =>
    intro seg h
    by_cases hc : c = sep
    · rw [show splitAllChar sep (c :: s) = [] :: splitAllChar sep s by
        simp [splitAllChar, hc]] at h
      rcases List.mem_cons.mp h with h | h
      · simp [h]
      · exact ih seg h
    · rw [show splitAllChar sep (c :: s)
          = match splitAllChar sep s with
            | [] => [[c]]
            | a :: as => (c :: a) :: as by simp [splitAllChar, hc]] at h
      cases hs : splitAllChar sep s with
      | nil => exact absurd hs (splitAllChar_ne_nil sep s)
      | cons a as =>
        rw [hs] at h
        rcases List.mem_cons.mp h with h | h
        · subst h
          have ha : sep ∉ a := ih a (by rw [hs]; exact List.mem_cons_self a as)
          simp [Ne.symm hc, ha]
        · exact ih seg (by rw [hs]; exact List.mem_cons_of_mem _ h)

theorem mem_setAdd (s : List Str) (x y : Str) :
    y ∈ setAdd s x ↔ y ∈ s ∨ y = x := by
  unfold setAdd
  by_cases h : x ∈ s
  · rw [if_pos h]
    constructor
    · exact Or.inl
    · rintro (hy | rfl)
      · exact hy
      · exact h
  · rw [if_neg h]
    simp

theorem nodup_setAdd (s : List Str) (x : Str) (h : s.Nodup) : (setAdd s x).Nodup := by
  unfold setAdd
  by_cases hx : x ∈ s
  · rw [if_pos hx]; exact h
  · rw [if_neg hx]
    simp [List.nodup_append, h]
    exact hx

theorem mem_foldl_rolesStep :
    ∀ (l : List Str) (init : List Str) (r : Str),
      r ∈ l.foldl rolesStep init
        ↔ r ∈ init ∨ ∃ b ∈ l, ∃ rest, splitFirst ['/'] b = some (r, rest) := by
  intro l
  induction l with
  | nil => simp
  | cons b l ih =>
    intro init r
    rw [List.foldl_cons, ih]
    have hstep : r ∈ rolesStep init b ↔
        r ∈ init ∨ ∃ rest, splitFirst ['/'] b = some (r, rest) := by
      unfold rolesStep
      cases hb : splitFirst ['/'] b with
      | none => simp [hb]
      | some q =>
        obtain ⟨qr, qrest⟩ := q
        rw [mem_setAdd]
        constructor
        · rintro (h | rfl)
          · exact Or.inl h
          · exact Or.inr ⟨qrest, rfl⟩
        · rintro (h | ⟨rest, hr⟩)
          · exact Or.inl h
          · simp only [Option.some_inj, Prod.mk.injEq] at hr
            exact Or.inr hr.1.symm
    rw [hstep]
    constructor
    · rintro ((h | ⟨rest, hr⟩) | ⟨b', hb', rest, hr⟩)
      · exact Or.inl h
      · exact Or.inr ⟨b, List.mem_cons_self b l, rest, hr⟩
      · exact Or.inr ⟨b', List.mem_cons_of_mem _ hb', rest, hr⟩
    · rintro (h | ⟨b', hb', rest, hr⟩)
      · exact Or.inl (Or.inl h)
      · rcases List.mem_cons.mp hb' with rfl | hb'
        · exact Or.inl (Or.inr ⟨rest, hr⟩)
        · exact Or.inr ⟨b', hb', rest, hr⟩

theorem nodup_foldl_rolesStep :
    ∀ (l : List Str) (init : List Str), init.Nodup → (l.foldl rolesStep init).Nodup := by
  intro l
  induction l with
  | nil => intro init h; simpa
  | cons b l ih =>
    intro init h
    rw [List.foldl_cons]
    apply ih
    unfold rolesStep
    cases hb : splitFirst ['/'] b with
    | none => exact h
    | some q => exact nodup_setAdd init q.1 h

theorem dictGet_cons_of_ne (p : Str × Str) (d : Dict) (k : Str) (h : ¬ p.1 = k) :
    dictGet (p :: d) k = dictGet d k := by
  simp [dictGet, List.find?_cons, h]

theorem dictGet_cons_of_eq (p : Str × Str) (d : Dict) (k : Str) (h : p.1 = k) :
    dictGet (p :: d) k = some p.2 := by
  simp [dictGet, List.find?_cons, h]

theorem dictGet_append_of_no_key :
    ∀ (d l : Dict) (k : Str), (∀ q ∈ d, ¬ q.1 = k) →
      dictGet (d ++ l) k = dictGet l k := by
  intro d
  induction d with
  | nil => simp
  | cons p d ih =>
    intro l k h
    rw [List.cons_append, dictGet_cons_of_ne p _ k (h p (List.mem_cons_self p d))]
    exact ih l k (fun q hq => h q (List.mem_cons_of_mem _ hq))

theorem dictGet_map_replace_of_mem :
    ∀ (d : Dict) (k v : Str), (∃ p ∈ d, p.1 = k) →
      dictGet (d.map (fun p => if p.1 = k then (k, v) else p)) k = some v := by
  intro d
  induction d with
  | nil => simp
  | cons p d ih =>
    intro k v h
    by_cases hpk : p.1 = k
    · rw [List.map_cons, if_pos hpk, dictGet_cons_of_eq _ _ _ rfl]
    · rw [List.map_cons, if_neg hpk, dictGet_cons_of_ne _ _ _ hpk]
      apply ih
      obtain ⟨p0, hp0, hk0⟩ := h
      rcases List.mem_cons.mp hp0 with rfl | hp0
      · exact absurd hk0 hpk
      · exact ⟨p0, hp0, hk0⟩

theorem dictGet_map_replace_other :
    ∀ (d : Dict) (k k' v : Str), ¬ k' = k →
      dictGet (d.map (fun p => if p.1 = k then (k, v) else p)) k' = dictGet d k' := by
  intro d
  induction d with
  | nil => simp
  | cons p d ih =>
    intro k k' v hne
    by_cases hpk : p.1 = k
    · rw [List.map_cons, if_pos hpk,
        dictGet_cons_of_ne (k, v) _ k' (fun hh => hne hh.symm),
        dictGet_cons_of_ne p _ k' (by rw [hpk]; exact fun hh => hne hh.symm)]
      exact ih k k' v hne
    · rw [List.map_cons, if_neg hpk]
      by_cases hp' : p.1 = k'
      · rw [dictGet_cons_of_eq _ _ _ hp', dictGet_cons_of_eq _ _ _ hp']
      · rw [dictGet_cons_of_ne _ _ _ hp', dictGet_cons_of_ne _ _ _ hp']
        exact ih k k' v hne

theorem dictGet_insert_self (d : Dict) (k v : Str) :
    dictGet (dictInsert d k v) k = some v := by
  unfold dictInsert
  by_cases h : d.any (fun p => p.1 = k)
  · rw [if_pos h]
    rw [List.any_eq_true] at h
    apply dictGet_map_replace_of_mem
    obtain ⟨p, hp, hk⟩ := h
    exact ⟨p, hp, by simpa using hk⟩
  · rw [if_neg h]
    rw [List.any_eq_true] at h
    push_neg at h
    rw [dictGet_append_of_no_key d [(k, v)] k (fun q hq => by simpa using h q hq)]
    exact dictGet_cons_of_eq _ _ _ rfl

theorem dictGet_append_single_other :
    ∀ (d : Dict) (k k' v : Str), ¬ k' = k →
      dictGet (d ++ [(k, v)]) k' = dictGet d k' := by
  intro d
  induction d with
  | nil =>
    intro k k' v hne
    rw [List.nil_append, dictGet_cons_of_ne (k, v) [] k' (fun hh => hne hh.symm)]
  | cons p d ih =>
    intro k k' v hne
    by_cases hp' : p.1 = k'
    · rw [List.cons_append, dictGet_cons_of_eq _ _ _ hp', dictGet_cons_of_eq _ _ _ hp']
    · rw [List.cons_append, dictGet_cons_of_ne _ _ _ hp', dictGet_cons_of_ne _ _ _ hp']
      exact ih k k' v hne

theorem dictGet_insert_other (d : Dict) (k k' v : Str) (hne : ¬ k' = k) :
    dictGet (dictInsert d k v) k' = dictGet d k' := by
  unfold dictInsert
  by_cases h : d.any (fun p => p.1 = k)
  · rw [if_pos h]
    exact dictGet_map_replace_other d k k' v hne
  · rw [if_neg h]
    exact dictGet_append_single_other d k k' v hne

theorem getLast?_cons_eq {α : Type} :
    ∀ (l : List α) (a : α),
      (a :: l).getLast? = match l.getLast? with | some b => some b | none => some a := by
  intro l
  induction l with
  | nil => intro a; rfl
  | cons b t ih =>
    intro a
    rw [List.getLast?_cons_cons, ih b]
    cases h : t.getLast? <;> simp

theorem dictGet_foldl_insert :
    ∀ (l : List (Str × Str)) (d : Dict) (k : Str),
      dictGet (l.foldl (fun d p => dictInsert d p.1 p.2) d) k
        = match (l.filter (fun p => p.1 = k)).getLast? with
          | some q => some q.2
          | none => dictGet d k := by
  intro l
  induction l with
  | nil => intro d k; simp
  | cons p l ih =>
    intro d k
    rw [List.foldl_cons, ih]
    by_cases hpk : p.1 = k
    · have hf : List.filter (fun q => decide (q.1 = k)) (p :: l)
          = p :: List.filter (fun q => decide (q.1 = k)) l := by
        simp [List.filter_cons, hpk]
      rw [hf, getLast?_cons_eq]
      cases hl : (List.filter (fun q => decide (q.1 = k)) l).getLast? with
      | some q => simp
      | none =>
        simp only []
        rw [← hpk, dictGet_insert_self]
    · have hf : List.filter (fun q => decide (q.1 = k)) (p :: l)
          = List.filter (fun q => decide (q.1 = k)) l := by
        simp [List.filter_cons, hpk]
      rw [hf]
      cases hl : (List.filter (fun q => decide (q.1 = k)) l).getLast? with
      | some q => simp
      | none =>
        simp only []
        exact dictGet_insert_other d p.1 k p.2 (fun hh => hpk hh.symm)

theorem parseTagsStep_error (line : Str) (e : PyError)
    (h : parseTagsStep line = .error e) : e = .unpackError := by
  unfold parseTagsStep at h
  by_cases hs : pyStartsWith ['@'] line
  · rw [if_pos hs] at h
    cases hx : splitFirst [' '] line with
    | none => rw [hx] at h; simp at h; exact h.symm
    | some q => rw [hx] at h; simp at h
  · rw [if_neg hs] at h; simp at h

theorem parsePfxStep_error (line : Str) (e : PyError)
    (h : parsePfxStep line = .error e) : e = .unpackError := by
  unfold parsePfxStep at h
  by_cases hs : pyStartsWith [':'] line
  · rw [if_pos hs] at h
    cases hx : splitFirst [' '] line with
    | none => rw [hx] at h; simp at h; exact h.symm
    | some q => rw [hx] at h; simp at h
  · rw [if_neg hs] at h; simp at h

theorem pyUpper_ne_nil {s : Str} (h : s ≠ []) : pyUpper s ≠ [] := by
  cases s with
  | nil => exact absurd rfl h
  | cons c t => simp [pyUpper]

theorem parseLocalsAux_error_emptyLine_iff (line : Str) :
    parseLocalsAux line = .error .emptyLine ↔ line = [] := by
  constructor
  · intro h
    by_contra hne
    unfold parseLocalsAux at h
    rw [if_neg hne] at h
    cases ht : parseTagsStep line with
    | error e =>
      rw [ht] at h
      have he := parseTagsStep_error line e ht
      subst he
      simp at h
    | ok q =>
      obtain ⟨tags, line1⟩ := q
      rw [ht] at h
      simp only [] at h
      cases hp : parsePfxStep line1 with
      | error e =>
        rw [hp] at h
        have he := parsePfxStep_error line1 e hp
        subst he
        simp at h
      | ok r =>
        obtain ⟨pfx, line2⟩ := r
        rw [hp] at h
        simp only [] at h
        cases hw : wsTokens (splitTrailing line2).1 with
        | nil => rw [hw] at h; simp at h
        | cons cmd ps => rw [hw] at h; simp at h
  · intro h
    subst h
    rfl

theorem parseLocalsAux_ok_command_ne_nil (line : Str) (m : IrcMessage)
    (h : parseLocalsAux line = .ok m) : m.command ≠ [] := by
  unfold parseLocalsAux at h
  by_cases hne : line = []
  · rw [if_pos hne] at h; simp at h
  · rw [if_neg hne] at h
    cases ht : parseTagsStep line with
    | error e => rw [ht] at h; simp at h
    | ok q =>
      obtain ⟨tags, line1⟩ := q
      rw [ht] at h
      simp only [] at h
      cases hp : parsePfxStep line1 with
      | error e => rw [hp] at h; simp at h
      | ok r =>
        obtain ⟨pfx, line2⟩ := r
        rw [hp] at h
        simp only [] at h
        cases hw : wsTokens (splitTrailing line2).1 with
        | nil => rw [hw] at h; simp at h
        | cons cmd ps =>
          rw [hw] at h
          simp only [Except.ok.injEq] at h
          subst h
          exact pyUpper_ne_nil
            (wsTokens_mem_ne_nil (by rw [hw]; exact List.mem_cons_self cmd ps))

theorem getLast?_cons_isSome {α : Type} :
    ∀ (t : List α) (c : α), ∃ b, (c :: t).getLast? = some b := by
  intro t
  induction t with
  | nil => intro c; exact ⟨c, rfl⟩
  | cons d t ih =>
    intro c
    rw [List.getLast?_cons_cons]
    exact ih d

theorem getLast?_append_right {α : Type} {l₂ : List α} (h : l₂ ≠ []) :
    ∀ l₁ : List α, (l₁ ++ l₂).getLast? = l₂.getLast? := by
  intro l₁
  induction l₁ with
  | nil => simp
  | cons a l₁ ih =>
    rw [List.cons_append, getLast?_cons_eq, ih]
    cases l₂ with
    | nil => exact absurd rfl h
    | cons b t =>
      obtain ⟨x, hx⟩ := getLast?_cons_isSome t b
      rw [hx]

theorem pyLStrip_eq_self_of_head (s : Str)
    (h : ∀ c, s.head? = some c → isPySpace c = false) : pyLStrip s = s := by
  cases s with
  | nil => rfl
  | cons c t => exact pyLStrip_cons_of_not_space (h c rfl) t

theorem pyStrip_eq_self (s : Str)
    (h1 : ∀ c, s.head? = some c → isPySpace c = false)
    (h2 : ∀ c, s.getLast? = some c → isPySpace c = false) : pyStrip s = s := by
  unfold pyStrip
  rw [pyLStrip_eq_self_of_head s h1, pyRStrip_eq_self s h2]

theorem parse_build_privmsg (ch tx : Str) (h1 : ch ≠ [])
    (h2 : ∀ c ∈ ch, isPySpace c = false)
    (h3 : ch.head? ≠ some ':')
    (h4 : ∀ c, tx.getLast? = some c → isPySpace c = false) :
    parseLocals (build_privmsg ch tx) =
      .ok { tags := [], pfx := none, command := "PRIVMSG".data,
            params := [ch], trailing := some tx } := by
  obtain ⟨c0, ch', rfl⟩ : ∃ c0 ch', ch = c0 :: ch' := by
    cases ch with
    | nil => exact absurd rfl h1
    | cons c0 ch' => exact ⟨c0, ch', rfl⟩
  have hc0 : c0 ≠ ':' := fun hh => h3 (by rw [hh]; rfl)
  have hL2 : build_privmsg (c0 :: ch') tx
      = 'P' :: 'R' :: 'I' :: 'V' :: 'M' :: 'S' :: 'G' :: ' '
          :: ((c0 :: ch') ++ ' ' :: ':' :: tx) := by
    show "PRIVMSG ".data ++ (c0 :: ch') ++ " :".data ++ tx = _
    simp [List.append_assoc]
  -- the split at the " :" marker
  have hsplit : splitFirst [' ', ':'] (build_privmsg (c0 :: ch') tx)
      = some ("PRIVMSG ".data ++ (c0 :: ch'), tx) := by
    rw [hL2]
    rw [splitFirst_cons_of_ne_space (by decide)]
    rw [splitFirst_cons_of_ne_space (by decide)]
    rw [splitFirst_cons_of_ne_space (by decide)]
    rw [splitFirst_cons_of_ne_space (by decide)]
    rw [splitFirst_cons_of_ne_space (by decide)]
    rw [splitFirst_cons_of_ne_space (by decide)]
    rw [splitFirst_cons_of_ne_space (by decide)]
    rw [List.cons_append, splitFirst_space_cons_of_ne hc0, ← List.cons_append,
      splitFirst_marker tx (c0 :: ch') h2]
    simp
  -- stripping is the identity on the built line
  have hhead : ∀ c, (build_privmsg (c0 :: ch') tx).head? = some c → isPySpace c = false := by
    intro c hc
    rw [hL2] at hc
    simp at hc
    subst hc
    decide
  have hlast : ∀ c, (build_privmsg (c0 :: ch') tx).getLast? = some c → isPySpace c = false := by
    intro c hc
    cases htx : tx with
    | nil =>
      rw [hL2, htx] at hc
      have : ('P' :: 'R' :: 'I' :: 'V' :: 'M' :: 'S' :: 'G' :: ' '
          :: ((c0 :: ch') ++ [' ', ':']) : Str)
          = ('P' :: 'R' :: 'I' :: 'V' :: 'M' :: 'S' :: 'G' :: ' ' :: (c0 :: ch') ++ [' ']) ++ [':'] := by
        simp
      rw [this, List.getLast?_concat] at hc
      cases hc
      decide
    | cons d tx' =>
      rw [hL2, htx] at hc
      have : ('P' :: 'R' :: 'I' :: 'V' :: 'M' :: 'S' :: 'G' :: ' '
          :: ((c0 :: ch') ++ ' ' :: ':' :: d :: tx') : Str)
          = ('P' :: 'R' :: 'I' :: 'V' :: 'M' :: 'S' :: 'G' :: ' ' :: (c0 :: ch') ++ [' ', ':']) ++ (d :: tx') := by
        simp
      rw [this, getLast?_append_right (by simp)] at hc
      exact h4 c (by rw [htx]; exact hc)
  have hstrip : pyStrip (build_privmsg (c0 :: ch') tx) = build_privmsg (c0 :: ch') tx :=
    pyStrip_eq_self _ hhead hlast
  -- walking the parser
  have hat : pyStartsWith ['@'] (build_privmsg (c0 :: ch') tx) = false := by
    rw [hL2]; rfl
  have hcol : pyStartsWith [':'] (build_privmsg (c0 :: ch') tx) = false := by
    rw [hL2]; rfl
  have htags : parseTagsStep (build_privmsg (c0 :: ch') tx)
      = .ok ([], build_privmsg (c0 :: ch') tx) := by
    unfold parseTagsStep
    rw [hat]
    rfl
  have hpfx : parsePfxStep (build_privmsg (c0 :: ch') tx)
      = .ok (none, build_privmsg (c0 :: ch') tx) := by
    unfold parsePfxStep
    rw [hcol]
    rfl
  have htrail : splitTrailing (build_privmsg (c0 :: ch') tx)
      = ("PRIVMSG ".data ++ (c0 :: ch'), some tx) := by
    unfold splitTrailing
    rw [hsplit]
  have htok : wsTokens ("PRIVMSG ".data ++ (c0 :: ch')) = ["PRIVMSG".data, c0 :: ch'] := by
    show wsTokensAux [] ("PRIVMSG".data ++ ' ' :: (c0 :: ch')) = _
    rw [wsTokensAux_token_space (c0 :: ch') "PRIVMSG".data (by decide) []
      (Or.inr (by decide))]
    rw [wsTokensAux_all_nonspace (c0 :: ch') h2 []]
    simp
  have hne : build_privmsg (c0 :: ch') tx ≠ [] := by
    rw [hL2]; simp
  show parseLocalsAux (pyStrip (build_privmsg (c0 :: ch') tx)) = _
  rw [hstrip]
  unfold parseLocalsAux
  rw [if_neg hne, htags]
  simp only []
  rw [hpfx]
  simp only []
  rw [htrail]
  simp only []
  rw [htok]
  simp only []
  rw [show pyUpper "PRIVMSG".data = "PRIVMSG".data from by decide]

theorem to_chat_ok_none_iff (m : IrcMessage) :
    m.to_chat_message = .ok none ↔ (m.command ≠ "PRIVMSG".data ∨ m.params = []) := by
  cases hp : m.params with
  | nil => simp [IrcMessage.to_chat_message, hp]
  | cons ch rest =>
    by_cases hc : m.command = "PRIVMSG".data <;>
      simp [IrcMessage.to_chat_message, hp, hc]

theorem to_chat_privmsg_error (m : IrcMessage) (ch : Str) (rest : List Str)
    (hp : m.params = ch :: rest) (hc : m.command = "PRIVMSG".data) :
    m.to_chat_message = .error .attributeError := by
  unfold IrcMessage.to_chat_message
  rw [hp]
  simp only []
  rw [if_pos hc]

theorem parseLocalsAux_error_cases (line : Str) (e : PyError)
    (h : parseLocalsAux line = .error e) :
    e = .emptyLine ∨ e = .unpackError ∨ e = .indexError := by
  unfold parseLocalsAux at h
  by_cases hne : line = []
  · rw [if_pos hne] at h
    simp at h
    exact Or.inl h.symm
  · rw [if_neg hne] at h
    cases ht : parseTagsStep line with
    | error e2 =>
      rw [ht] at h
      simp at h
      have he2 := parseTagsStep_error line e2 ht
      subst he2
      exact Or.inr (Or.inl h.symm)
    | ok q =>
      obtain ⟨tags, line1⟩ := q
      rw [ht] at h
      simp only [] at h
      cases hpf : parsePfxStep line1 with
      | error e2 =>
        rw [hpf] at h
        simp at h
        have he2 := parsePfxStep_error line1 e2 hpf
        subst he2
        exact Or.inr (Or.inl h.symm)
      | ok r =>
        obtain ⟨pfx, line2⟩ := r
        rw [hpf] at h
        simp only [] at h
        cases hw : wsTokens (splitTrailing line2).1 with
        | nil =>
          rw [hw] at h
          simp at h
          exact Or.inr (Or.inr h.symm)
        | cons cmd ps =>
          rw [hw] at h
          simp at h

theorem parse_never_ok (raw : Str) (m : IrcMessage) : parse_irc_line raw ≠ .ok m := by
  unfold parse_irc_line
  cases h : parseLocals raw with
  | error e => simp
  | ok f => simp

theorem parse_error_emptyLine_iff (raw : Str) :
    parse_irc_line raw = .error .emptyLine ↔ pyStrip raw = [] := by
  unfold parse_irc_line
  cases h : parseLocals raw with
  | error e =>
    show Except.error e = Except.error PyError.emptyLine ↔ pyStrip raw = []
    constructor
    · intro hh
      simp only [Except.error.injEq] at hh
      subst hh
      exact (parseLocalsAux_error_emptyLine_iff (pyStrip raw)).mp h
    · intro hh
      have h2 : parseLocals raw = Except.error PyError.emptyLine :=
        (parseLocalsAux_error_emptyLine_iff (pyStrip raw)).mpr hh
      rw [h] at h2
      exact h2
  | ok f =>
    show Except.error PyError.typeError = Except.error PyError.emptyLine ↔ pyStrip raw = []
    constructor
    · intro hh
      simp at hh
    · intro hh
      have h2 : parseLocals raw = Except.error PyError.emptyLine :=
        (parseLocalsAux_error_emptyLine_iff (pyStrip raw)).mpr hh
      rw [h] at h2
      simp at h2

/-! ### The claims -/

/-- C1 (corrected): in the source `EmptyLine` is raised exactly on empty-trim
input, but the rest of the original claim fails: `parse_irc_line` never
returns an `IrcMessage` (every successful tokenization ends in the
construction `TypeError`), every non-empty-trim input fails with the unpack
`ValueError`, the `IndexError`, or that `TypeError`, and `to_chat_message`
exposes a further error channel (`AttributeError`) on every PRIVMSG with
params. -/
theorem claim_C1_amended :
    (∀ raw : Str, parse_irc_line raw = .error .emptyLine ↔ pyStrip raw = []) ∧
    (∀ (raw : Str) (m : IrcMessage), parse_irc_line raw ≠ .ok m) ∧
    (∀ raw : Str, pyStrip raw ≠ [] →
      parse_irc_line raw = .error .unpackError ∨
      parse_irc_line raw = .error .indexError ∨
      parse_irc_line raw = .error .typeError) ∧
    (∀ (m : IrcMessage) (ch : Str) (rest : List Str),
      m.params = ch :: rest → m.command = "PRIVMSG".data →
      m.to_chat_message = .error .attributeError) := by
  refine ⟨parse_error_emptyLine_iff, parse_never_ok, ?_, to_chat_privmsg_error⟩
  intro raw hne
  cases h : parseLocals raw with
  | ok f =>
    right; right
    show (match parseLocals raw with
      | .error e => Except.error e
      | .ok _ => Except.error PyError.typeError) = Except.error PyError.typeError
    rw [h]
  | error e =>
    have hparse : parse_irc_line raw = .error e := by
      show (match parseLocals raw with
        | .error e => Except.error e
        | .ok _ => Except.error PyError.typeError) = Except.error e
      rw [h]
    rcases parseLocalsAux_error_cases (pyStrip raw) e h with rfl | rfl | rfl
    · exact absurd ((parse_error_emptyLine_iff raw).mp hparse) hne
    · exact Or.inl hparse
    · exact Or.inr (Or.inl hparse)

theorem claim_C1_amended_witness :
    (parse_irc_line "@x".data = Except.error PyError.unpackError ∨
     parse_irc_line "@x".data = Except.error PyError.indexError ∨
     parse_irc_line "@x".data = Except.error PyError.typeError) ∧
    IrcMessage.to_chat_message mC3 = Except.error PyError.attributeError :=
  ⟨claim_C1_amended.2.2.1 "@x".data (by decide),
   claim_C1_amended.2.2.2 mC3 "#chan".data [] rfl rfl⟩

/-- C1 counterexample: "@x" trims to a non-empty string, yet parse fails
(with the unpack ValueError, not EmptyLine). -/
theorem claim_C1_counterexample :
    pyStrip "@x".data ≠ [] ∧
      parse_irc_line "@x".data = .error .unpackError ∧
      PyError.unpackError ≠ PyError.emptyLine := by
  refine ⟨by decide, rfl, by decide⟩

/-- C2 (corrected): the original claim describes the user of the produced
ChatMessage, with a present-but-empty display-name tag resolving from the
prefix.  In the source no ChatMessage is produced — `to_chat_message` raises
`AttributeError` for every PRIVMSG with params — and the user argument
expression of the attempted construction, `tags.get('display-name', nick or
'')`, takes the tag value whenever the key is present, even when it is
empty. -/
theorem claim_C2_amended (m : IrcMessage) (ch : Str) (rest : List Str)
    (hc : m.command = "PRIVMSG".data) (hp : m.params = ch :: rest) :
    m.to_chat_message = .error .attributeError ∧
    ((∃ v, dictGet m.tags "display-name".data = some v ∧ userArg m = v) ∨
     (dictGet m.tags "display-name".data = none ∧
       userArg m = (IrcMessage.nick m).getD [])) := by
  refine ⟨to_chat_privmsg_error m ch rest hp hc, ?_⟩
  cases hdn : dictGet m.tags "display-name".data with
  | some v => exact Or.inl ⟨v, rfl, by simp [userArg, dictGetD, hdn]⟩
  | none => exact Or.inr ⟨rfl, by simp [userArg, dictGetD, hdn]⟩

/-- C2 counterexample: at the claim's own input — display-name present but
empty, prefix `bar!x@y` — the source raises `AttributeError` and produces no
ChatMessage, and even the intended user expression evaluates to the empty
string, not the nick "bar". -/
theorem claim_C2_counterexample :
    IrcMessage.to_chat_message
      { tags := [("display-name".data, [])], pfx := some "bar!x@y".data,
        command := "PRIVMSG".data, params := ["#c".data],
        trailing := some "hi".data } = .error .attributeError ∧
    userArg
      { tags := [("display-name".data, [])], pfx := some "bar!x@y".data,
        command := "PRIVMSG".data, params := ["#c".data],
        trailing := some "hi".data } = [] ∧
    ([] : Str) ≠ "bar".data := by
  exact ⟨rfl, rfl, by decide⟩

theorem claim_C2_amended_witness :
    mC2.to_chat_message = Except.error PyError.attributeError :=
  (claim_C2_amended mC2 "#chan".data [] rfl rfl).1

/-- C3 (code bug): the no-result half is faithful — `to_chat_message` returns
`None` (a value, not an error) exactly when the command is not PRIVMSG or
params is empty — but in every other case the source raises `AttributeError`
at the `self._parse_badges_to_roles` call (models.py line 26) before any
ChatMessage is built, against the claim's (and the method docstring's)
promise of a ChatMessage with channel, text and raw. -/
theorem claim_C3 :
    (∀ m : IrcMessage,
      m.to_chat_message = .ok none ↔ (m.command ≠ "PRIVMSG".data ∨ m.params = [])) ∧
    (∀ (m : IrcMessage) (ch : Str) (rest : List Str),
      m.params = ch :: rest → m.command = "PRIVMSG".data →
      m.to_chat_message = .error .attributeError) ∧
    IrcMessage.to_chat_message mC3 = .error .attributeError :=
  ⟨to_chat_ok_none_iff, to_chat_privmsg_error, rfl⟩

theorem claim_C3_witness :
    IrcMessage.to_chat_message
      { tags := [], pfx := none, command := "PRIVMSG".data,
        params := ["#a".data], trailing := none }
      = Except.error PyError.attributeError :=
  claim_C3.2.1 _ "#a".data [] rfl rfl

/-- C4 (code bug): the claim's invariant presupposes successful parses, but
`parse_irc_line` never returns an IrcMessage — the construction `TypeError`
fires on every input that survives tokenization.  The invariant does hold of
the computed locals: the `command` local (`parts[0].upper()`, irc.py
line 40) is never empty. -/
theorem claim_C4 :
    (∀ (raw : Str) (m : IrcMessage), parse_irc_line raw ≠ .ok m) ∧
    (∀ (raw : Str) (f : IrcMessage), parseLocals raw = .ok f → f.command ≠ []) ∧
    parse_irc_line "PING :x".data = .error .typeError := by
  refine ⟨parse_never_ok, ?_, rfl⟩
  intro raw f h
  exact parseLocalsAux_ok_command_ne_nil (pyStrip raw) f h

theorem claim_C4_witness :
    ({ tags := [], pfx := none, command := "PING".data, params := [],
       trailing := some "x".data } : IrcMessage).command ≠ [] :=
  claim_C4.2.1 "PING :x".data _ rfl

/-- C5 (corrected): for a non-empty whitespace-free channel that does not
start with a colon, and text without trailing whitespace, the tokenization
locals of `parse_irc_line (build_privmsg channel text)` recover command
PRIVMSG, params [channel] and trailing text — but the parse itself then
always fails with the construction `TypeError`. -/
theorem claim_C5_amended (ch tx : Str) (h1 : ch ≠ [])
    (h2 : allNotSpace ch = true) (h3 : ch.head? ≠ some ':')
    (h4 : lastNotSpace tx = true) :
    parseLocals (build_privmsg ch tx) =
      .ok { tags := [], pfx := none, command := "PRIVMSG".data,
            params := [ch], trailing := some tx } ∧
    parse_irc_line (build_privmsg ch tx) = .error .typeError := by
  have hloc : parseLocals (build_privmsg ch tx) =
      .ok { tags := [], pfx := none, command := "PRIVMSG".data,
            params := [ch], trailing := some tx } := by
    apply parse_build_privmsg ch tx h1 _ h3
    · intro c hc
      unfold lastNotSpace at h4
      rw [hc] at h4
      simpa using h4
    · intro c hc
      have := List.all_eq_true.mp h2 c hc
      simpa using this
  refine ⟨hloc, ?_⟩
  show (match parseLocals (build_privmsg ch tx) with
    | .error e => Except.error e
    | .ok _ => Except.error PyError.typeError) = Except.error PyError.typeError
  rw [hloc]

theorem claim_C5_amended_witness :
    parseLocals (build_privmsg "#chan".data "hi".data) =
      .ok { tags := [], pfx := none, command := "PRIVMSG".data,
            params := ["#chan".data], trailing := some "hi".data } ∧
    parse_irc_line (build_privmsg "#chan".data "hi".data) = .error .typeError :=
  claim_C5_amended "#chan".data "hi".data (by decide) (by decide) (by decide) (by decide)

/-- C5 counterexample: at the claim's own inputs the parse does not succeed —
`"#chan"`/`"hi"` satisfy every stated hypothesis yet the parse ends in the
construction `TypeError` instead of the claimed IrcMessage — and a
whitespace-free channel starting with a colon (`":c"`) additionally breaks
the round trip at the locals level (the `" :"` marker is found inside
`PRIVMSG :c`). -/
theorem claim_C5_counterexample :
    ("#chan".data ≠ [] ∧ allNotSpace "#chan".data = true ∧
      lastNotSpace "hi".data = true) ∧
    parse_irc_line (build_privmsg "#chan".data "hi".data) = .error .typeError ∧
    (Except.error PyError.typeError : Except PyError IrcMessage)
      ≠ .ok { tags := [], pfx := none, command := "PRIVMSG".data,
              params := ["#chan".data], trailing := some "hi".data } ∧
    (":c".data ≠ [] ∧ allNotSpace ":c".data = true) ∧
    parseLocals (build_privmsg ":c".data "hi".data) =
      .ok { tags := [], pfx := none, command := "PRIVMSG".data,
            params := [], trailing := some "c :hi".data } ∧
    ([] : List Str) ≠ [":c".data] := by
  refine ⟨by decide, rfl, by simp, by decide, rfl, by decide⟩

/-- C6 (code bug): step 4's trailing detection agrees with the spec's
first-occurrence search for all lines, and on the canonical example the
parser's locals take exactly prefix `nick!user@host`, command `PRIVMSG`,
params `["#chan"]`, trailing `hello world` (with `nick` derived as `nick`) —
but the parse then ends in the construction `TypeError` instead of yielding
that IrcMessage. -/
theorem claim_C6 :
    (∀ line : Str, splitTrailing line = specSplitTrailing line) ∧
    parseLocals ":nick!user@host PRIVMSG #chan :hello world".data
      = .ok { tags := [], pfx := some "nick!user@host".data,
              command := "PRIVMSG".data, params := ["#chan".data],
              trailing := some "hello world".data } ∧
    parse_irc_line ":nick!user@host PRIVMSG #chan :hello world".data
      = .error .typeError ∧
    IrcMessage.nick
      { tags := [], pfx := some "nick!user@host".data, command := "PRIVMSG".data,
        params := ["#chan".data], trailing := some "hello world".data }
      = some "nick".data := by
  refine ⟨?_, rfl, rfl, rfl⟩
  intro line
  unfold splitTrailing specSplitTrailing
  rw [splitFirst_eq_firstOccurIdx]
  cases h : firstOccurIdx [' ', ':'] line <;> simp

/-- C7 (code bug): the tag parser splits on `;`, skips empty segments and
splits each segment at the first `=` (whole segment and empty value when `=`
is absent), and on the canonical tagged example the locals carry exactly the
claimed tags, command and params — but the parse then ends in the
construction `TypeError` instead of yielding them. -/
theorem claim_C7 :
    (∀ raw : Str, joinWith ';' (splitAllChar ';' raw) = raw) ∧
    (∀ (raw seg : Str), seg ∈ splitAllChar ';' raw → ';' ∉ seg) ∧
    (∀ (raw k v : Str), (k, v) ∈ tagPairs raw →
      ∃ seg, seg ∈ splitAllChar ';' raw ∧ seg ≠ [] ∧
        ((seg = k ++ '=' :: v ∧ '=' ∉ k) ∨ (seg = k ∧ v = [] ∧ '=' ∉ seg))) ∧
    parseLocals "@a=1;b;c=3 COMMAND p1 p2".data
      = .ok { tags := [("a".data, "1".data), ("b".data, []), ("c".data, "3".data)],
              pfx := none, command := "COMMAND".data,
              params := ["p1".data, "p2".data], trailing := none } ∧
    parse_irc_line "@a=1;b;c=3 COMMAND p1 p2".data = .error .typeError := by
  refine ⟨joinWith_splitAllChar ';', splitAllChar_not_mem_sep ';', ?_, rfl, rfl⟩
  intro raw k v h
  unfold tagPairs at h
  rw [List.mem_map] at h
  obtain ⟨kv, hkv, hf⟩ := h
  rw [List.mem_filter] at hkv
  obtain ⟨hmem, hne⟩ := hkv
  refine ⟨kv, hmem, by simpa using hne, ?_⟩
  cases hsf : splitFirst ['='] kv with
  | some q =>
    rw [hsf] at hf
    subst hf
    obtain ⟨hkv2, hnk⟩ := splitFirst_char_some '=' kv k v hsf
    exact Or.inl ⟨hkv2, hnk⟩
  | none =>
    rw [hsf] at hf
    obtain ⟨rfl, rfl⟩ : kv = k ∧ ([] : Str) = v := by
      constructor
      · exact congrArg Prod.fst hf
      · exact congrArg Prod.snd hf
    exact Or.inr ⟨rfl, rfl, (splitFirst_char_none_iff '=' kv).mp hsf⟩

theorem claim_C7_witness :
    ∃ seg, seg ∈ splitAllChar ';' "a=1".data ∧ seg ≠ [] ∧
      ((seg = "a".data ++ '=' :: "1".data ∧ '=' ∉ "a".data) ∨
       (seg = "a".data ∧ "1".data = [] ∧ '=' ∉ seg)) :=
  claim_C7.2.2.1 "a=1".data "a".data "1".data (by decide)

/-- C8 (code bug): `_parse_badges_to_roles` itself extracts, duplicate-free,
exactly the substrings before the first `/` of the `,`-entries that contain
one — `"moderator/1,subscriber/0"` gives `{moderator, subscriber}` — but the
claim's produced ChatMessage never exists: `to_chat_message` raises
`AttributeError` at the very `self._parse_badges_to_roles` call for every
PRIVMSG with params, badges tag or not. -/
theorem claim_C8 :
    (∀ (badges r : Str), r ∈ _parse_badges_to_roles badges ↔
      ∃ entry, entry ∈ splitAllChar ',' badges ∧
        ∃ rest, entry = r ++ '/' :: rest ∧ '/' ∉ r) ∧
    (∀ badges : Str, (_parse_badges_to_roles badges).Nodup) ∧
    (_parse_badges_to_roles "moderator/1,subscriber/0".data
      = ["moderator".data, "subscriber".data]) ∧
    IrcMessage.to_chat_message mC8 = .error .attributeError ∧
    (∀ (m : IrcMessage) (ch : Str) (rest : List Str),
      m.params = ch :: rest → m.command = "PRIVMSG".data →
      m.to_chat_message = .error .attributeError) := by
  refine ⟨?_, ?_, rfl, rfl, to_chat_privmsg_error⟩
  · intro badges r
    unfold _parse_badges_to_roles
    rw [mem_foldl_rolesStep]
    simp [splitFirst_char_some_iff]
  · intro badges
    unfold _parse_badges_to_roles
    exact nodup_foldl_rolesStep _ [] List.nodup_nil

theorem claim_C8_witness :
    IrcMessage.to_chat_message
      { tags := [("badges".data, "b/1".data)], pfx := none,
        command := "PRIVMSG".data, params := ["#b".data], trailing := none }
      = Except.error PyError.attributeError :=
  claim_C8.2.2.2.2 _ "#b".data [] rfl rfl

/-- C9: the builders produce the exact literal lines, PASS before NICK. -/
theorem claim_C9 :
    (∀ channel text payload token nick : Str,
      build_privmsg channel text = "PRIVMSG ".data ++ channel ++ " :".data ++ text ∧
      build_pong payload = "PONG :".data ++ payload ∧
      build_join channel = "JOIN ".data ++ channel ∧
      build_pass_nick token nick
        = ["PASS oauth:".data ++ token, "NICK ".data ++ nick] ∧
      (build_pass_nick token nick).head? = some ("PASS oauth:".data ++ token) ∧
      (build_pass_nick token nick).drop 1 = ["NICK ".data ++ nick]) ∧
    build_privmsg "#chan".data "hi".data = "PRIVMSG #chan :hi".data ∧
    build_pong "x".data = "PONG :x".data ∧
    build_join "#c".data = "JOIN #c".data ∧
    build_pass_nick "tok123".data "mybot".data
      = ["PASS oauth:tok123".data, "NICK mybot".data] := by
  exact ⟨fun _ _ _ _ _ => ⟨rfl, rfl, rfl, rfl, rfl, rfl⟩, rfl, rfl, rfl, rfl⟩

/-- C10 (code bug): duplicate tag keys resolve to the value of the last
occurrence and the tag-parsing step itself succeeds (the dict is built with
the overwritten binding, and the locals carry it), but the enclosing parse
then ends in the construction `TypeError` rather than succeeding. -/
theorem claim_C10 :
    (∀ (raw k : Str), dictGet (_parse_tags raw) k
      = ((tagPairs raw).filter (fun p => p.1 = k)).getLast?.map (fun q => q.2)) ∧
    (_parse_tags "a=1;a=2".data = [("a".data, "2".data)]) ∧
    parseTagsStep "@a=1;a=2 CMD".data = .ok ([("a".data, "2".data)], "CMD".data) ∧
    parseLocals "@a=1;a=2 CMD".data
      = .ok { tags := [("a".data, "2".data)], pfx := none,
              command := "CMD".data, params := [], trailing := none } ∧
    parse_irc_line "@a=1;a=2 CMD".data = .error .typeError := by
  refine ⟨?_, rfl, rfl, rfl, rfl⟩
  intro raw k
  unfold _parse_tags dictOfPairs
  rw [dictGet_foldl_insert]
  cases h : ((tagPairs raw).filter (fun p => p.1 = k)).getLast? <;> simp [dictGet]

end Twitchbot
